import Mathlib

/-!
Shallow embedding of the Student-mark-manager repository.

The repository has two variants of the same five operations:
* `src/student_mark_manager.py` — class `StudentMarksManager`, an in-memory
  list of student dicts;
* `src/student_mark_manager_mysql.py` — class `StudentMarksManagerDB`, the
  same operations against a MySQL table `students` whose column `roll_no`
  carries a `UNIQUE` constraint.

Numeric modelling: Python ints/floats for `marks` are embedded as `ℚ`
(the sample data and all arithmetic are exact), `roll_no` as `ℤ`.
A Python dict (used by `get_subject_wise_stats`) is embedded as an
association list in key-insertion order, which is exactly the iteration
order of a Python 3.7+ dict.
-/

/-- Embeds the student record dict
`{'roll_no': ..., 'name': ..., 'subject': ..., 'marks': ...}` built by
`StudentMarksManager.add_student`, equally the row shape
`(roll_no, name, subject, marks)` of the MySQL `students` table. -/
structure Student where
  roll_no : ℤ
  name : String
  subject : String
  marks : ℚ
deriving DecidableEq, Repr

/-- Result of `calculate_average_marks` in either variant: the source
prints `❌ No student records found!` and returns the sentinel `0` when the
store is empty, and otherwise returns the computed average.
`emptyStoreReported` records whether that error branch was taken. -/
structure AvgResult where
  emptyStoreReported : Bool
  value : ℚ
deriving DecidableEq, Repr

namespace StudentMarksManager

/-- Embeds `StudentMarksManager.add_student` (src/student_mark_manager.py
lines 19-36): builds the record dict and appends it to `self.students`.
The Python method is total: it performs no duplicate check and cannot fail. -/
def add_student (students : List Student) (roll_no : ℤ) (name subject : String)
    (marks : ℚ) : List Student :=
  students ++ [⟨roll_no, name, subject, marks⟩]

/-- Embeds the semantics of Python `max(self.students, key=lambda x: x['marks'])`:
scan left to right keeping the current best, replacing it only when a later
element's key is strictly greater, so the first maximal element wins. -/
def maxByMarks : Student → List Student → Student
  | cur, [] => cur
  | cur, s :: rest => maxByMarks (if cur.marks < s.marks then s else cur) rest

/-- Embeds `StudentMarksManager.find_highest_marks` (lines 54-71): returns
`None` (here `none`) on an empty store, else
`max(self.students, key=lambda x: x['marks'])`. -/
def find_highest_marks : List Student → Option Student
  | [] => none
  | s :: rest => some (maxByMarks s rest)

/-- Embeds `StudentMarksManager.calculate_average_marks` (lines 73-90):
on an empty store it prints the error message and returns `0`; otherwise
`total_marks = sum(student['marks'] ...)` divided by `len(self.students)`. -/
def calculate_average_marks (students : List Student) : AvgResult :=
  match students with
  | [] => ⟨true, 0⟩
  | _ => ⟨false, (students.map Student.marks).sum / (students.length : ℚ)⟩

/-- Embeds `StudentMarksManager.get_student_count` (lines 92-94):
`len(self.students)`. -/
def get_student_count (students : List Student) : ℕ :=
  students.length

/-- Embeds `StudentMarksManager.find_student_by_roll_no` (lines 96-101):
a for-loop returning the first record whose `roll_no` matches, else `None`. -/
def find_student_by_roll_no : List Student → ℤ → Option Student
  | [], _ => none
  | s :: rest, roll_no =>
      if s.roll_no = roll_no then some s else find_student_by_roll_no rest roll_no

/-- Embeds one iteration of the dict-building loop in
`get_subject_wise_stats`: `subjects[subject].append(marks)` after
`subjects[subject] = []` when the key is new.  A Python dict keeps keys in
insertion order and keys are unique, so the association list updates the
(unique) existing entry in place or appends a fresh key at the end. -/
def addMark : List (String × List ℚ) → String → ℚ → List (String × List ℚ)
  | [], subject, mark => [(subject, [mark])]
  | (k, ms) :: rest, subject, mark =>
      if k = subject then (k, ms ++ [mark]) :: rest
      else (k, ms) :: addMark rest subject mark

/-- Embeds the first loop of `get_subject_wise_stats` (lines 105-110):
builds the dict `subjects` mapping each subject to its list of marks, in
the order records are enumerated. -/
def groupBySubject (students : List Student) : List (String × List ℚ) :=
  students.foldl (fun m s => addMark m s.subject s.marks) []

/-- Embeds Python `max(marks_list)` over the nonempty per-subject marks
list; the `[]` case is unreachable in the source (Python would raise). -/
def pyMax : List ℚ → ℚ
  | [] => 0
  | x :: xs => xs.foldl max x

/-- Embeds Python `min(marks_list)`; the `[]` case is unreachable in the
source. -/
def pyMin : List ℚ → ℚ
  | [] => 0
  | x :: xs => xs.foldl min x

/-- One line of the statistics report printed by `get_subject_wise_stats`:
subject, `Average`, `Highest`, `Lowest`, `Students`. -/
structure SubjectStats where
  subject : String
  average : ℚ
  highest : ℚ
  lowest : ℚ
  studentCount : ℕ
deriving DecidableEq, Repr

/-- Embeds `StudentMarksManager.get_subject_wise_stats` (lines 103-123):
groups marks by subject in first-encounter order, then for each group
computes the average, max, min and count that the second loop prints. -/
def get_subject_wise_stats (students : List Student) : List SubjectStats :=
  (groupBySubject students).map fun g =>
    ⟨g.1, g.2.sum / (g.2.length : ℚ), pyMax g.2, pyMin g.2, g.2.length⟩

end StudentMarksManager

namespace StudentMarksManagerDB

/-- Embeds `StudentMarksManagerDB.add_student`
(src/student_mark_manager_mysql.py lines 89-103) together with the MySQL
semantics of the `roll_no INT UNIQUE NOT NULL` column declared in
`connect_and_setup` (lines 69-80): the `INSERT` succeeds and appends a row
unless a row with the same `roll_no` already exists, in which case MySQL
raises a duplicate-key error, the except branch prints it and returns
`False`, and the table is left unchanged.  Returns (new table, success). -/
def add_student (rows : List Student) (roll_no : ℤ) (name subject : String)
    (marks : ℚ) : List Student × Bool :=
  if rows.any (fun s => s.roll_no == roll_no) then (rows, false)
  else (rows ++ [⟨roll_no, name, subject, marks⟩], true)

/-- Stable descending insertion by `marks`: auxiliary step of the model of
the SQL `ORDER BY marks DESC`. -/
def insertDesc (s : Student) : List Student → List Student
  | [] => [s]
  | t :: ts => if t.marks < s.marks then s :: t :: ts else t :: insertDesc s ts

/-- Models the SQL `ORDER BY marks DESC` over the table rows as a stable
insertion sort (SQL leaves the relative order of equal keys unspecified;
any permutation sorted by descending `marks` satisfies the queries below). -/
def sortByMarksDesc : List Student → List Student
  | [] => []
  | s :: ss => insertDesc s (sortByMarksDesc ss)

/-- Embeds `StudentMarksManagerDB.find_highest_marks` (lines 130-156):
`SELECT roll_no, name, subject, marks FROM students ORDER BY marks DESC
LIMIT 1`, returning `None` when the table is empty. -/
def find_highest_marks (rows : List Student) : Option Student :=
  (sortByMarksDesc rows).head?

/-- Embeds `StudentMarksManagerDB.calculate_average_marks` (lines 158-184):
`SELECT COUNT(*), SUM(marks), AVG(marks) FROM students`; when the count is
zero it prints the error message and returns `0`, otherwise it returns
`AVG(marks)`, which MySQL computes as `SUM(marks)/COUNT(*)`. -/
def calculate_average_marks (rows : List Student) : AvgResult :=
  match rows with
  | [] => ⟨true, 0⟩
  | _ => ⟨false, (rows.map Student.marks).sum / (rows.length : ℚ)⟩

end StudentMarksManagerDB

/-- Total number of marks held across all groups of a subjects dict. -/
def groupTotal (m : List (String × List ℚ)) : ℕ :=
  (m.map fun g => g.2.length).sum

/-- Key sequence of a subjects dict, in dict (insertion) order. -/
def keysOf (m : List (String × List ℚ)) : List String :=
  m.map Prod.fst

/-- Spec-side definition for the group-ordering claim, following the spec
words "the order subjects are first encountered in store enumeration":
keeps the first occurrence of each subject, dropping later repeats. -/
def firstEncounterOrder (l : List String) : List String :=
  l.foldl (fun acc s => if s ∈ acc then acc else acc ++ [s]) []

/-- Concrete store used by witnesses: three of the sample records seeded by
`main`. -/
def sampleStore : List Student :=
  [⟨101, "Alice Johnson", "Mathematics", 95⟩,
   ⟨102, "Bob Smith", "Physics", 87⟩,
   ⟨103, "Carol Davis", "Chemistry", 92⟩]

/-- Concrete store with two records tied for the maximum marks. -/
def tieStore : List Student :=
  [⟨1, "A", "Mathematics", 90⟩, ⟨2, "B", "Physics", 95⟩, ⟨3, "C", "Chemistry", 95⟩]

/-! ## Helper lemmas -/

namespace StudentMarksManager

lemma maxByMarks_start_le (rest : List Student) :
    ∀ cur : Student, cur.marks ≤ (maxByMarks cur rest).marks := by
  induction rest with
  | nil => intro cur; exact le_refl _
  | cons s rest ih =>
    intro cur
    show cur.marks ≤ (maxByMarks (if cur.marks < s.marks then s else cur) rest).marks
    refine le_trans ?_ (ih _)
    by_cases h : cur.marks < s.marks
    · simp [h, le_of_lt h]
    · simp [h]

lemma maxByMarks_split (rest : List Student) :
    ∀ cur : Student, ∃ pre post,
      cur :: rest = pre ++ maxByMarks cur rest :: post ∧
      (∀ s ∈ pre, s.marks < (maxByMarks cur rest).marks) ∧
      (∀ s ∈ post, s.marks ≤ (maxByMarks cur rest).marks) := by
  induction rest with
  | nil =>
    intro cur
    exact ⟨[], [], rfl, by simp, by simp⟩
  | cons s rest ih =>
    intro cur
    have hunfold : maxByMarks cur (s :: rest)
        = maxByMarks (if cur.marks < s.marks then s else cur) rest := rfl
    by_cases h : cur.marks < s.marks
    · rw [hunfold, if_pos h]
      obtain ⟨pre, post, heq, hpre, hpost⟩ := ih s
      refine ⟨cur :: pre, post, ?_, ?_, hpost⟩
      · rw [List.cons_append, ← heq]
      · intro x hx
        rcases List.mem_cons.mp hx with hx | hx
        · subst hx
          exact lt_of_lt_of_le h (maxByMarks_start_le rest s)
        · exact hpre x hx
    · rw [hunfold, if_neg h]
      have hs : s.marks ≤ cur.marks := le_of_not_lt h
      obtain ⟨pre, post, heq, hpre, hpost⟩ := ih cur
      cases pre with
      | nil =>
        simp only [List.nil_append] at heq
        injection heq with hcur hrest
        refine ⟨[], s :: post, ?_, by simp, ?_⟩
        · simp only [List.nil_append, ← hcur, ← hrest]
        · intro x hx
          rcases List.mem_cons.mp hx with hx | hx
          · subst hx; rw [← hcur]; exact hs
          · exact hpost x hx
      | cons p pre₁ =>
        simp only [List.cons_append] at heq
        injection heq with hpc hrest
        have hcurlt : cur.marks < (maxByMarks cur rest).marks := by
          have hcp := hpre p (List.mem_cons_self _ _)
          rwa [← hpc] at hcp
        refine ⟨cur :: s :: pre₁, post, ?_, ?_, hpost⟩
        · rw [List.cons_append, List.cons_append, ← hrest]
        · intro x hx
          rcases List.mem_cons.mp hx with hx | hx
          · subst hx; exact hcurlt
          · rcases List.mem_cons.mp hx with hx | hx
            · subst hx; exact lt_of_le_of_lt hs hcurlt
            · exact hpre x (List.mem_cons_of_mem _ hx)

lemma groupTotal_addMark :
    ∀ (m : List (String × List ℚ)) (subject : String) (mark : ℚ),
      groupTotal (addMark m subject mark) = groupTotal m + 1 := by
  intro m
  induction m with
  | nil => intro subject mark; simp [addMark, groupTotal]
  | cons g rest ih =>
    intro subject mark
    obtain ⟨k, ms⟩ := g
    by_cases h : k = subject
    · simp only [addMark, if_pos h, groupTotal, List.map_cons, List.sum_cons,
        List.length_append, List.length_cons, List.length_nil]
      omega
    · simp only [addMark, if_neg h, groupTotal, List.map_cons, List.sum_cons]
      have hr := ih subject mark
      simp only [groupTotal] at hr
      omega

lemma groupTotal_fold :
    ∀ (students : List Student) (m : List (String × List ℚ)),
      groupTotal (students.foldl (fun m s => addMark m s.subject s.marks) m)
        = groupTotal m + students.length := by
  intro students
  induction students with
  | nil => intro m; simp
  | cons s rest ih =>
    intro m
    simp only [List.foldl_cons, List.length_cons, ih, groupTotal_addMark]
    omega

lemma keysOf_addMark :
    ∀ (m : List (String × List ℚ)) (subject : String) (mark : ℚ),
      keysOf (addMark m subject mark)
        = if subject ∈ keysOf m then keysOf m else keysOf m ++ [subject] := by
  intro m
  induction m with
  | nil => intro subject mark; simp [addMark, keysOf]
  | cons g rest ih =>
    intro subject mark
    obtain ⟨k, ms⟩ := g
    by_cases h : k = subject
    · subst h
      simp [addMark, keysOf]
    · have hne : subject ≠ k := fun hc => h hc.symm
      simp only [addMark, if_neg h]
      show k :: keysOf (addMark rest subject mark)
          = if subject ∈ k :: keysOf rest then k :: keysOf rest
            else (k :: keysOf rest) ++ [subject]
      rw [ih subject mark]
      by_cases hm : subject ∈ keysOf rest
      · rw [if_pos hm, if_pos (List.mem_cons_of_mem _ hm)]
      · have hnotin : subject ∉ k :: keysOf rest := by
          intro hc
          rcases List.mem_cons.mp hc with hc | hc
          · exact hne hc
          · exact hm hc
        rw [if_neg hm, if_neg hnotin, List.cons_append]

lemma keysOf_fold :
    ∀ (students : List Student) (m : List (String × List ℚ)),
      keysOf (students.foldl (fun m s => addMark m s.subject s.marks) m)
        = (students.map Student.subject).foldl
            (fun acc s => if s ∈ acc then acc else acc ++ [s]) (keysOf m) := by
  intro students
  induction students with
  | nil => intro m; simp
  | cons s rest ih =>
    intro m
    simp only [List.foldl_cons, List.map_cons, ih, keysOf_addMark]

end StudentMarksManager

namespace StudentMarksManagerDB

lemma mem_insertDesc (s : Student) :
    ∀ (l : List Student) (x : Student), x ∈ insertDesc s l ↔ x = s ∨ x ∈ l := by
  intro l
  induction l with
  | nil => intro x; simp [insertDesc]
  | cons t ts ih =>
    intro x
    by_cases h : t.marks < s.marks
    · simp only [insertDesc, if_pos h, List.mem_cons]
    · simp only [insertDesc, if_neg h, List.mem_cons, ih]
      tauto

lemma pairwise_insertDesc (s : Student) :
    ∀ l : List Student,
      List.Pairwise (fun a b : Student => b.marks ≤ a.marks) l →
      List.Pairwise (fun a b : Student => b.marks ≤ a.marks) (insertDesc s l) := by
  intro l
  induction l with
  | nil => intro _; simp [insertDesc]
  | cons t ts ih =>
    intro hp
    rw [List.pairwise_cons] at hp
    by_cases h : t.marks < s.marks
    · rw [insertDesc, if_pos h, List.pairwise_cons]
      refine ⟨?_, List.pairwise_cons.mpr hp⟩
      intro x hx
      rcases List.mem_cons.mp hx with hx | hx
      · subst hx; exact le_of_lt h
      · exact le_trans (hp.1 x hx) (le_of_lt h)
    · rw [insertDesc, if_neg h, List.pairwise_cons]
      refine ⟨?_, ih hp.2⟩
      intro x hx
      rcases (mem_insertDesc s ts x).mp hx with hx | hx
      · subst hx; exact le_of_not_lt h
      · exact hp.1 x hx

lemma mem_sortByMarksDesc :
    ∀ (l : List Student) (x : Student), x ∈ sortByMarksDesc l ↔ x ∈ l := by
  intro l
  induction l with
  | nil => intro x; simp [sortByMarksDesc]
  | cons s ss ih =>
    intro x
    rw [sortByMarksDesc, mem_insertDesc s (sortByMarksDesc ss) x, ih x, List.mem_cons]

lemma pairwise_sortByMarksDesc :
    ∀ l : List Student,
      List.Pairwise (fun a b : Student => b.marks ≤ a.marks) (sortByMarksDesc l) := by
  intro l
  induction l with
  | nil => simp [sortByMarksDesc]
  | cons s ss ih => exact pairwise_insertDesc s _ ih

end StudentMarksManagerDB

/-! ## Claim theorems -/

/-- C1: for every non-empty store, the record returned by the highest-marks
operation has marks greater than or equal to the marks of every record in
the store, in the in-memory variant (`StudentMarksManager.find_highest_marks`)
and in the database variant (`StudentMarksManagerDB.find_highest_marks`). -/
theorem highest_marks_ge_all (students rows : List Student)
    (hs : students ≠ []) (hr : rows ≠ []) :
    (∃ t, StudentMarksManager.find_highest_marks students = some t ∧
      ∀ s ∈ students, s.marks ≤ t.marks) ∧
    (∃ t, StudentMarksManagerDB.find_highest_marks rows = some t ∧
      ∀ s ∈ rows, s.marks ≤ t.marks) := by
  constructor
  · cases students with
    | nil => exact absurd rfl hs
    | cons s rest =>
      obtain ⟨pre, post, heq, hpre, hpost⟩ := StudentMarksManager.maxByMarks_split rest s
      refine ⟨StudentMarksManager.maxByMarks s rest, rfl, ?_⟩
      intro x hx
      rw [heq] at hx
      rcases List.mem_append.mp hx with hx | hx
      · exact le_of_lt (hpre x hx)
      · rcases List.mem_cons.mp hx with hx | hx
        · subst hx; exact le_refl _
        · exact hpost x hx
  · cases rows with
    | nil => exact absurd rfl hr
    | cons r rs =>
      have hmem : r ∈ StudentMarksManagerDB.sortByMarksDesc (r :: rs) :=
        (StudentMarksManagerDB.mem_sortByMarksDesc (r :: rs) r).mpr
          (List.mem_cons_self _ _)
      cases hsort : StudentMarksManagerDB.sortByMarksDesc (r :: rs) with
      | nil => rw [hsort] at hmem; cases hmem
      | cons top tl =>
        refine ⟨top, ?_, ?_⟩
        · show (StudentMarksManagerDB.sortByMarksDesc (r :: rs)).head? = some top
          rw [hsort]; rfl
        · intro x hx
          have hx₁ : x ∈ top :: tl := by
            rw [← hsort]
            exact (StudentMarksManagerDB.mem_sortByMarksDesc (r :: rs) x).mpr hx
          have hpw := StudentMarksManagerDB.pairwise_sortByMarksDesc (r :: rs)
          rw [hsort, List.pairwise_cons] at hpw
          rcases List.mem_cons.mp hx₁ with hx₁ | hx₁
          · subst hx₁; exact le_refl _
          · exact hpw.1 x hx₁

/-- C1 witness: both highest-marks operations dominate every record of the
three-record sample store. -/
theorem highest_marks_ge_all_witness :
    sampleStore ≠ [] ∧
    ((∃ t, StudentMarksManager.find_highest_marks sampleStore = some t ∧
        ∀ s ∈ sampleStore, s.marks ≤ t.marks) ∧
      (∃ t, StudentMarksManagerDB.find_highest_marks sampleStore = some t ∧
        ∀ s ∈ sampleStore, s.marks ≤ t.marks)) :=
  ⟨by decide, highest_marks_ge_all sampleStore sampleStore (by decide) (by decide)⟩

/-- C2: for every non-empty store, the average operation returns exactly
the arithmetic mean sum of marks divided by record count (the embedding is
over `ℚ`, so equality is exact, hence within any floating-point tolerance),
and the empty-store error branch is not taken; this holds in both variants. -/
theorem average_is_mean (students rows : List Student)
    (hs : students ≠ []) (hr : rows ≠ []) :
    StudentMarksManager.calculate_average_marks students
      = ⟨false, (students.map Student.marks).sum
          / (StudentMarksManager.get_student_count students : ℚ)⟩ ∧
    StudentMarksManagerDB.calculate_average_marks rows
      = ⟨false, (rows.map Student.marks).sum / (rows.length : ℚ)⟩ := by
  constructor
  · cases students with
    | nil => exact absurd rfl hs
    | cons s rest => rfl
  · cases rows with
    | nil => exact absurd rfl hr
    | cons r rs => rfl

/-- C2 witness: on the sample store the average evaluates to 274/3 and
matches the arithmetic mean in both variants. -/
theorem average_is_mean_witness :
    sampleStore ≠ [] ∧
    StudentMarksManager.calculate_average_marks sampleStore = ⟨false, 274/3⟩ ∧
    (StudentMarksManager.calculate_average_marks sampleStore
        = ⟨false, (sampleStore.map Student.marks).sum
            / (StudentMarksManager.get_student_count sampleStore : ℚ)⟩ ∧
      StudentMarksManagerDB.calculate_average_marks sampleStore
        = ⟨false, (sampleStore.map Student.marks).sum / (sampleStore.length : ℚ)⟩) :=
  ⟨by decide,
    by
      simp only [sampleStore, StudentMarksManager.calculate_average_marks,
        List.map_cons, List.map_nil, List.sum_cons, List.sum_nil,
        List.length_cons, List.length_nil]
      norm_num,
    average_is_mean sampleStore sampleStore (by decide) (by decide)⟩

/-- C3: on a store with zero records, the in-memory highest-marks operation
returns `None` and the in-memory average operation takes the
empty-store error branch (prints the error message and returns the
sentinel 0) rather than computing a result. -/
theorem empty_store_fails (students : List Student)
    (h : StudentMarksManager.get_student_count students = 0) :
    StudentMarksManager.find_highest_marks students = none ∧
    StudentMarksManager.calculate_average_marks students = ⟨true, 0⟩ := by
  have hnil : students = [] := List.length_eq_zero.mp h
  subst hnil
  exact ⟨rfl, rfl⟩

/-- C3 witness: the empty store. -/
theorem empty_store_fails_witness :
    StudentMarksManager.get_student_count [] = 0 ∧
    (StudentMarksManager.find_highest_marks [] = none ∧
      StudentMarksManager.calculate_average_marks [] = ⟨true, 0⟩) :=
  ⟨rfl, empty_store_fails [] rfl⟩

/-- C4: in persistent mode, adding a record whose rollNumber is already
present fails (the duplicate-key error path returns `False`) and leaves the
table, in particular the prior record for that rollNumber, unchanged. -/
theorem db_duplicate_add_rejected (rows : List Student) (roll : ℤ)
    (nm subj : String) (mk : ℚ) (prior : Student)
    (hmem : prior ∈ rows) (hroll : prior.roll_no = roll) :
    StudentMarksManagerDB.add_student rows roll nm subj mk = (rows, false) ∧
    prior ∈ (StudentMarksManagerDB.add_student rows roll nm subj mk).1 := by
  have hany : rows.any (fun s => s.roll_no == roll) = true :=
    List.any_eq_true.mpr ⟨prior, hmem, by rw [hroll]; exact beq_self_eq_true _⟩
  have heq : StudentMarksManagerDB.add_student rows roll nm subj mk = (rows, false) := by
    unfold StudentMarksManagerDB.add_student
    rw [if_pos hany]
  exact ⟨heq, by rw [heq]; exact hmem⟩

/-- C4 witness: re-inserting rollNumber 1 into a one-row table fails and
keeps the prior row. -/
theorem db_duplicate_add_rejected_witness :
    (⟨1, "Alice", "Mathematics", 10⟩ : Student)
        ∈ ([⟨1, "Alice", "Mathematics", 10⟩] : List Student) ∧
    (⟨1, "Alice", "Mathematics", 10⟩ : Student).roll_no = 1 ∧
    (StudentMarksManagerDB.add_student [⟨1, "Alice", "Mathematics", 10⟩] 1 "Bob" "Physics" 20
        = ([⟨1, "Alice", "Mathematics", 10⟩], false) ∧
      (⟨1, "Alice", "Mathematics", 10⟩ : Student)
        ∈ (StudentMarksManagerDB.add_student
            [⟨1, "Alice", "Mathematics", 10⟩] 1 "Bob" "Physics" 20).1) :=
  ⟨by decide, rfl,
    db_duplicate_add_rejected [⟨1, "Alice", "Mathematics", 10⟩] 1 "Bob" "Physics" 20
      ⟨1, "Alice", "Mathematics", 10⟩ (by decide) rfl⟩

/-- C5 counterexample: in the in-memory variant the insert/lookup
round-trip does not return the inserted record when its rollNumber was
already present: after adding (1, Bob, Physics, 20) to a store already
holding rollNumber 1, lookup of 1 returns the older (1, Alice, Mathematics,
10) record instead. -/
theorem roundtrip_not_exact_on_reused_roll :
    StudentMarksManager.find_student_by_roll_no
        (StudentMarksManager.add_student [⟨1, "Alice", "Mathematics", 10⟩] 1 "Bob" "Physics" 20) 1
      ≠ some ⟨1, "Bob", "Physics", 20⟩ ∧
    StudentMarksManager.find_student_by_roll_no
        (StudentMarksManager.add_student [⟨1, "Alice", "Mathematics", 10⟩] 1 "Bob" "Physics" 20) 1
      = some ⟨1, "Alice", "Mathematics", 10⟩ :=
  ⟨by decide, by decide⟩

/-- C5 (amended): for every store holding no record with the given
rollNumber, inserting a record with that rollNumber via the in-memory add
and then looking the rollNumber up returns exactly the inserted record. -/
theorem roundtrip_after_fresh_add (students : List Student) (roll : ℤ)
    (nm subj : String) (mk : ℚ)
    (h : ∀ s ∈ students, s.roll_no ≠ roll) :
    StudentMarksManager.find_student_by_roll_no
        (StudentMarksManager.add_student students roll nm subj mk) roll
      = some ⟨roll, nm, subj, mk⟩ := by
  induction students with
  | nil =>
    simp [StudentMarksManager.add_student, StudentMarksManager.find_student_by_roll_no]
  | cons s rest ih =>
    have hne : s.roll_no ≠ roll := h s (List.mem_cons_self _ _)
    show StudentMarksManager.find_student_by_roll_no
        (s :: (rest ++ [⟨roll, nm, subj, mk⟩])) roll = _
    rw [StudentMarksManager.find_student_by_roll_no, if_neg hne]
    exact ih (fun x hx => h x (List.mem_cons_of_mem _ hx))

/-- C5 witness for the amended claim: adding rollNumber 104 to the sample
store (which does not contain 104) and looking it up returns the new
record. -/
theorem roundtrip_after_fresh_add_witness :
    (∀ s ∈ sampleStore, s.roll_no ≠ 104) ∧
    StudentMarksManager.find_student_by_roll_no
        (StudentMarksManager.add_student sampleStore 104 "David Wilson" "Mathematics" 78) 104
      = some ⟨104, "David Wilson", "Mathematics", 78⟩ :=
  ⟨by decide,
    roundtrip_after_fresh_add sampleStore 104 "David Wilson" "Mathematics" 78 (by decide)⟩

/-- C6: the in-memory add is total (it can never fail), appends the new
record, and the resulting store contains every prior record and the new
one; duplicates are permitted silently. -/
theorem add_student_appends (students : List Student) (roll : ℤ)
    (nm subj : String) (mk : ℚ) :
    StudentMarksManager.add_student students roll nm subj mk
      = students ++ [⟨roll, nm, subj, mk⟩] ∧
    (∀ s ∈ students, s ∈ StudentMarksManager.add_student students roll nm subj mk) ∧
    (⟨roll, nm, subj, mk⟩ : Student)
      ∈ StudentMarksManager.add_student students roll nm subj mk := by
  refine ⟨rfl, ?_, ?_⟩
  · intro s hs
    exact List.mem_append_left _ hs
  · exact List.mem_append_right _ (List.mem_cons_self _ _)

/-- C7: the per-subject group sizes produced by the in-memory
subject-statistics operation sum to the total record count returned by
`get_student_count`. -/
theorem subject_stats_counts_sum (students : List Student) :
    ((StudentMarksManager.get_subject_wise_stats students).map
        StudentMarksManager.SubjectStats.studentCount).sum
      = StudentMarksManager.get_student_count students := by
  unfold StudentMarksManager.get_subject_wise_stats StudentMarksManager.get_student_count
    StudentMarksManager.groupBySubject
  rw [List.map_map]
  have hcomp : (StudentMarksManager.SubjectStats.studentCount ∘ fun g : String × List ℚ =>
      (⟨g.1, g.2.sum / (g.2.length : ℚ), StudentMarksManager.pyMax g.2,
        StudentMarksManager.pyMin g.2, g.2.length⟩ : StudentMarksManager.SubjectStats))
      = fun g : String × List ℚ => g.2.length := rfl
  rw [hcomp]
  have h := StudentMarksManager.groupTotal_fold students []
  simpa [groupTotal] using h

/-- C8: for every non-empty store, the in-memory highest-marks operation
returns the first record in store enumeration order among those tied for
the maximum marks: every record before it has strictly smaller marks and
every record after it has smaller-or-equal marks. -/
theorem highest_marks_first_of_ties (students : List Student) (h : students ≠ []) :
    ∃ t pre post,
      StudentMarksManager.find_highest_marks students = some t ∧
      students = pre ++ t :: post ∧
      (∀ s ∈ pre, s.marks < t.marks) ∧
      (∀ s ∈ post, s.marks ≤ t.marks) := by
  cases students with
  | nil => exact absurd rfl h
  | cons s rest =>
    obtain ⟨pre, post, heq, hpre, hpost⟩ := StudentMarksManager.maxByMarks_split rest s
    exact ⟨StudentMarksManager.maxByMarks s rest, pre, post, rfl, heq, hpre, hpost⟩

/-- C8 witness: in a store where records 2 and 3 tie at 95 marks, the
operation returns record 2, the first of the tie. -/
theorem highest_marks_first_of_ties_witness :
    tieStore ≠ [] ∧
    StudentMarksManager.find_highest_marks tieStore
      = some ⟨2, "B", "Physics", 95⟩ ∧
    (∃ t pre post,
      StudentMarksManager.find_highest_marks tieStore = some t ∧
      tieStore = pre ++ t :: post ∧
      (∀ s ∈ pre, s.marks < t.marks) ∧
      (∀ s ∈ post, s.marks ≤ t.marks)) :=
  ⟨by decide, by decide, highest_marks_first_of_ties tieStore (by decide)⟩

/-- C9: the in-memory subject-statistics operation lists its groups in the
order the subjects are first encountered in store enumeration order. -/
theorem subject_stats_order_first_encounter (students : List Student) :
    (StudentMarksManager.get_subject_wise_stats students).map
        StudentMarksManager.SubjectStats.subject
      = firstEncounterOrder (students.map Student.subject) := by
  unfold StudentMarksManager.get_subject_wise_stats StudentMarksManager.groupBySubject
    firstEncounterOrder
  rw [List.map_map]
  have hcomp : (StudentMarksManager.SubjectStats.subject ∘ fun g : String × List ℚ =>
      (⟨g.1, g.2.sum / (g.2.length : ℚ), StudentMarksManager.pyMax g.2,
        StudentMarksManager.pyMin g.2, g.2.length⟩ : StudentMarksManager.SubjectStats))
      = Prod.fst := rfl
  rw [hcomp]
  have h := StudentMarksManager.keysOf_fold students []
  simpa [keysOf] using h

/-- C10: in the in-memory variant, when records share a rollNumber the
lookup returns the earliest such record in insertion order: for a store
split as pre ++ r :: post where no record of pre carries the rollNumber,
the lookup returns r, whatever duplicates post contains. -/
theorem find_by_roll_returns_earliest (pre post : List Student) (r : Student)
    (roll : ℤ) (hr : r.roll_no = roll) (hpre : ∀ s ∈ pre, s.roll_no ≠ roll) :
    StudentMarksManager.find_student_by_roll_no (pre ++ r :: post) roll = some r := by
  induction pre with
  | nil =>
    simp only [List.nil_append]
    rw [StudentMarksManager.find_student_by_roll_no, if_pos hr]
  | cons p ps ih =>
    have hne : p.roll_no ≠ roll := hpre p (List.mem_cons_self _ _)
    rw [List.cons_append, StudentMarksManager.find_student_by_roll_no, if_neg hne]
    exact ih (fun x hx => hpre x (List.mem_cons_of_mem _ hx))

/-- C10 witness: with two records sharing rollNumber 1, the lookup returns
the first (Alice), not the later (Bob). -/
theorem find_by_roll_returns_earliest_witness :
    (⟨1, "Alice", "Mathematics", 10⟩ : Student).roll_no = 1 ∧
    (∀ s ∈ ([] : List Student), s.roll_no ≠ 1) ∧
    StudentMarksManager.find_student_by_roll_no
        ([] ++ (⟨1, "Alice", "Mathematics", 10⟩ : Student) :: [⟨1, "Bob", "Physics", 20⟩]) 1
      = some ⟨1, "Alice", "Mathematics", 10⟩ :=
  ⟨rfl, by decide,
    find_by_roll_returns_earliest [] [⟨1, "Bob", "Physics", 20⟩]
      ⟨1, "Alice", "Mathematics", 10⟩ 1 rfl (by decide)⟩
